import Mathlib

/-!
Shallow embedding of the kakoune-lsp core under verification:
`src/workspace.rs` (settings projection, workspace-edit application,
resource operations, completion acceptance) and
`src/language_features/completion.rs` (completion menu assembly,
completion-item resolve).

Conventions of the embedding:
* Rust `u64`/`u32` counters are modelled as `Nat`; the only arithmetic the
  verified properties depend on is addition and `saturating_sub`, neither of
  which can overflow on the inputs involved, so no `% 2^w` reduction is
  needed.
* `serde_json::Map` / `toml::value::Table` / `HashMap` values are modelled as
  association lists; key order inside an object is not observable by any
  property proved here.
* Fallible Rust functions (`io::Result`, panics, `assert!`) are modelled with
  `Except` / explicit outcome inductives.
* External collaborators that the excerpt calls but does not define
  (`std::fs` primitives, `apply_text_edits` from `text_edit.rs`, the
  coordinate converters from `position.rs`) are modelled as an explicit
  file-system state, an effect log, and function parameters respectively;
  the control flow around them is translated line by line from the source.
* Purely presentational string assembly (editor quoting, markdown rendering,
  menu column padding, snippet prefix extraction) does not affect any claim
  and is not modelled; the data it would serialize is kept structured.
-/

set_option autoImplicit false

namespace KakLsp

/-! ## Settings projector (`workspace.rs`: `insert_value`,
`did_change_configuration`) -/

/-- Model of `serde_json::Value` restricted to the shapes the settings
projector manipulates: scalars and nested objects. -/
inductive JVal where
  | num (n : Int)
  | str (s : String)
  | obj (fields : List (String × JVal))
  deriving Repr

/-- Key lookup in an object's field list (first match), mirroring map
lookup in `serde_json::map::Map`. -/
def lookupField (key : String) : List (String × JVal) → Option JVal
  | [] => none
  | (k, v) :: rest => if k = key then some v else lookupField key rest

/-- Key update in an object's field list: replace in place when present,
append when absent — the observable behaviour of `Map::insert` /
`Entry::or_insert_with` (key order is not observable here). -/
def setField (key : String) (value : JVal) : List (String × JVal) → List (String × JVal)
  | [] => [(key, value)]
  | (k, v) :: rest =>
    if k = key then (k, value) :: rest else (k, v) :: setField key value rest

/-- The two error messages `insert_value` can produce. -/
inductive InsertErr where
  | notObject
  | replacedOld
  deriving Repr, DecidableEq

/-- Rust `insert_value` from `workspace.rs`. The Rust function mutates
`target` through `&mut` and then possibly returns `Err`, so the model
returns the post-state *together with* the optional error: on the
`Replaced old value` error the insertion has already happened, and on the
`Expected path … to be object` error the map is unchanged. -/
def insert_value : List String → List (String × JVal) → String → JVal →
    List (String × JVal) × Option InsertErr
  | key :: rest, target, local_key, value =>
    match lookupField key target with
    | some (JVal.obj m) =>
      let r := insert_value rest m local_key value
      (setField key (JVal.obj r.1) target, r.2)
    | some _ => (target, some InsertErr.notObject)
    | none =>
      -- `entry(key).or_insert_with(Object::new)` inserts a fresh object
      -- and the recursion proceeds inside it.
      let r := insert_value rest [] local_key value
      (setField key (JVal.obj r.1) target, r.2)
  | [], target, local_key, value =>
    match lookupField local_key target with
    | some _ => (setField local_key value target, some InsertErr.replacedOld)
    | none => (setField local_key value target, none)

/-- The warnings `did_change_configuration` can log per key. -/
inductive SettingsWarning where
  | emptyLocalName (raw_key : String)
  | couldNotSet (raw_key : String) (e : InsertErr)
  deriving Repr, DecidableEq

/-- Splitting a character list on a separator, as Rust's
`str::split(char)` does: splitting the empty input yields one empty
piece, and every separator occurrence starts a new piece. -/
def splitOnChar (sep : Char) : List Char → List (List Char)
  | [] => [[]]
  | c :: rest =>
    let r := splitOnChar sep rest
    if c = sep then [] :: r
    else
      match r with
      | [] => [[c]]
      | g :: gs => (c :: g) :: gs

/-- Rust `raw_key.split(sep)` on a string. -/
def strSplit (sep : Char) (s : String) : List String :=
  (splitOnChar sep s.toList).map (fun cs => { data := cs })

/-- Rust `raw_key.split('.')` followed by `next_back()`: the last segment and
the remaining (leading) segments, in order.  `split('.')` always yields at
least one item, so the `none` branch is unreachable — it is kept because
the source has the corresponding (dead) `None` arm. -/
def splitKeyParts (raw_key : String) : Option (List String × String) :=
  match (strSplit '.' raw_key).getLast? with
  | some local_key => some ((strSplit '.' raw_key).dropLast, local_key)
  | none => none

/-- Rust `did_change_configuration` from `workspace.rs`, restricted to its
settings-projection loop (the trailing notification send carries the
resulting object unchanged).  Input is the flat table in iteration order;
`toml → serde_json` value conversion is modelled as the identity because
the inputs of interest are already JSON-representable (the conversion
error branch drops a key exactly like the other `warn!` branches).
Returns the projected object and the warnings logged. -/
def did_change_configuration (raw_settings : List (String × JVal)) :
    List (String × JVal) × List SettingsWarning :=
  raw_settings.foldl
    (fun acc kv =>
      match splitKeyParts kv.1 with
      | none => (acc.1, acc.2 ++ [SettingsWarning.emptyLocalName kv.1])
      | some (key_parts, local_key) =>
        let r := insert_value key_parts acc.1 local_key kv.2
        match r.2 with
        | some e => (r.1, acc.2 ++ [SettingsWarning.couldNotSet kv.1 e])
        | none => (r.1, acc.2))
    ([], [])

/-! ## File-system model and resource operations (`workspace.rs`:
`apply_document_resource_op`) -/

/-- A file-system entry: a file with its content, or a directory. -/
inductive FsEntry where
  | file (content : String)
  | dir
  deriving Repr, DecidableEq

/-- A path, as its list of components. -/
abbrev FsPath := List String

/-- The file system, modelling the `std::fs` collaborator: a finite map
from path to entry, as an association list. -/
abbrev Fs := List (FsPath × FsEntry)

/-- Lookup of a path's entry. -/
def fsLookup (fs : Fs) (p : FsPath) : Option FsEntry :=
  match fs with
  | [] => none
  | (q, e) :: rest => if q = p then some e else fsLookup rest p

/-- Rust `path.exists()`. -/
def fsExists (fs : Fs) (p : FsPath) : Bool :=
  (fsLookup fs p).isSome

/-- Rust `path.is_dir()`. -/
def fsIsDir (fs : Fs) (p : FsPath) : Bool :=
  fsLookup fs p = some FsEntry.dir

/-- Rust `path.is_file()`. -/
def fsIsFile (fs : Fs) (p : FsPath) : Bool :=
  match fsLookup fs p with
  | some (FsEntry.file _) => true
  | _ => false

/-- Whether the directory at `p` has an entry strictly below it. -/
def fsHasChild (fs : Fs) (p : FsPath) : Bool :=
  fs.any (fun e => p ≠ e.1 ∧ p <+: e.1)

/-- Update or add an entry. -/
def fsSet (fs : Fs) (p : FsPath) (e : FsEntry) : Fs :=
  match fs with
  | [] => [(p, e)]
  | (q, v) :: rest => if q = p then (q, e) :: rest else (q, v) :: fsSet rest p e

/-- Remove exactly the entry at `p`. -/
def fsRemove (fs : Fs) (p : FsPath) : Fs :=
  fs.filter (fun e => e.1 ≠ p)

/-- Rust `fs::write(&path, [])`: create or truncate the file at `path` with
empty content. -/
def fsWrite (fs : Fs) (p : FsPath) : Except String Fs :=
  Except.ok (fsSet fs p (FsEntry.file ""))

/-- Rust `fs::remove_dir`: remove an empty directory; fails on a non-empty
one. -/
def fsRemoveDir (fs : Fs) (p : FsPath) : Except String Fs :=
  if fsHasChild fs p then Except.error "Directory not empty"
  else Except.ok (fsRemove fs p)

/-- Rust `fs::remove_dir_all`: remove the directory and everything below
it. -/
def fsRemoveDirAll (fs : Fs) (p : FsPath) : Except String Fs :=
  Except.ok (fs.filter (fun e => ¬ p <+: e.1))

/-- Rust `fs::remove_file`. -/
def fsRemoveFile (fs : Fs) (p : FsPath) : Except String Fs :=
  Except.ok (fsRemove fs p)

/-- Rust `fs::rename`: move the entry (and, for a directory, its subtree) from
`from` to `to`, replacing anything at the destination; fails when the
source does not exist. -/
def fsRename (fs : Fs) (from_path to_path : FsPath) : Except String Fs :=
  if fsExists fs from_path then
    Except.ok
      ((fs.filter (fun e => ¬ from_path <+: e.1 ∧ ¬ to_path <+: e.1)).append
        ((fs.filter (fun e => from_path <+: e.1)).map
          (fun e => (to_path ++ e.1.drop from_path.length, e.2))))
  else Except.error "No such file or directory"

/-- Rust `lsp_types::CreateFileOptions`. -/
structure CreateFileOptions where
  overwrite : Option Bool
  ignore_if_exists : Option Bool
  deriving Repr, DecidableEq

/-- Rust `lsp_types::CreateFile` (the URI is modelled by its file path). -/
structure CreateFile where
  uri : FsPath
  options : Option CreateFileOptions
  deriving Repr, DecidableEq

/-- Rust `lsp_types::DeleteFileOptions`. -/
structure DeleteFileOptions where
  recursive : Option Bool
  deriving Repr, DecidableEq

/-- Rust `lsp_types::DeleteFile`. -/
structure DeleteFile where
  uri : FsPath
  options : Option DeleteFileOptions
  deriving Repr, DecidableEq

/-- Rust `lsp_types::RenameFileOptions`. -/
structure RenameFileOptions where
  overwrite : Option Bool
  ignore_if_exists : Option Bool
  deriving Repr, DecidableEq

/-- Rust `lsp_types::RenameFile`. -/
structure RenameFile where
  old_uri : FsPath
  new_uri : FsPath
  options : Option RenameFileOptions
  deriving Repr, DecidableEq

/-- Rust `lsp_types::ResourceOp`. -/
inductive ResourceOp where
  | create (op : CreateFile)
  | delete (op : DeleteFile)
  | rename (op : RenameFile)
  deriving Repr, DecidableEq

/-- The `ignore_if_exists` flag computed in the `Create` arm of
`apply_document_resource_op`: options present, `overwrite` not set, and
`ignore_if_exists` set. -/
def create_ignore_if_exists (options : Option CreateFileOptions) : Bool :=
  match options with
  | some options => !(options.overwrite.getD false) && options.ignore_if_exists.getD false
  | none => false

/-- The `recursive` flag computed in the `Delete` arm of
`apply_document_resource_op`. -/
def delete_recursive (options : Option DeleteFileOptions) : Bool :=
  match options with
  | some options => options.recursive.getD false
  | none => false

/-- The `ignore_if_exists` flag computed in the `Rename` arm of
`apply_document_resource_op`. -/
def rename_ignore_if_exists (options : Option RenameFileOptions) : Bool :=
  match options with
  | some options => !(options.overwrite.getD false) && options.ignore_if_exists.getD false
  | none => false

/-- Rust `apply_document_resource_op` from `workspace.rs`, translated arm by
arm; the `io::Result` is the `Except`, acting on the modelled file
system. -/
def apply_document_resource_op (op : ResourceOp) (fs : Fs) : Except String Fs :=
  match op with
  | ResourceOp.create op =>
    let path := op.uri
    let ignore_if_exists := create_ignore_if_exists op.options
    if ignore_if_exists && fsExists fs path then
      Except.ok fs
    else
      fsWrite fs path
  | ResourceOp.delete op =>
    let path := op.uri
    if fsIsDir fs path then
      let recursive := delete_recursive op.options
      if recursive then fsRemoveDirAll fs path else fsRemoveDir fs path
    else if fsIsFile fs path then
      fsRemoveFile fs path
    else
      Except.ok fs
  | ResourceOp.rename op =>
    let from_path := op.old_uri
    let to_path := op.new_uri
    let ignore_if_exists := rename_ignore_if_exists op.options
    if ignore_if_exists && fsExists fs to_path then
      Except.ok fs
    else
      fsRename fs from_path to_path

/-! ## Workspace-edit application (`workspace.rs`: `apply_edit`) -/

/-- Rust `lsp_types::TextEdit` in protocol coordinates: the positions are
(line, character) pairs. -/
structure LspPos where
  line : Nat
  character : Nat
  deriving Repr, DecidableEq

/-- A protocol range. -/
structure LspRange where
  start : LspPos
  «end» : LspPos
  deriving Repr, DecidableEq

/-- A protocol text edit. -/
structure TextEdit where
  range : LspRange
  new_text : String
  deriving Repr, DecidableEq

/-- Rust `lsp_types::TextDocumentEdit` (the URI modelled as a string). -/
structure TextDocumentEdit where
  uri : String
  edits : List TextEdit
  deriving Repr, DecidableEq

/-- Rust `lsp_types::DocumentChangeOperation`. -/
inductive DocumentChangeOperation where
  | edit (edit : TextDocumentEdit)
  | op (op : ResourceOp)
  deriving Repr, DecidableEq

/-- Rust `lsp_types::DocumentChanges`. -/
inductive DocumentChanges where
  | edits (edits : List TextDocumentEdit)
  | operations (ops : List DocumentChangeOperation)
  deriving Repr, DecidableEq

/-- Rust `lsp_types::WorkspaceEdit`, restricted to the two fields `apply_edit`
reads. -/
structure WorkspaceEdit where
  document_changes : Option DocumentChanges
  changes : Option (List (String × List TextEdit))
  deriving Repr, DecidableEq

/-- One observable effect of `apply_edit`: a call to the external
`apply_text_edits` collaborator or a successfully executed resource
operation. -/
inductive AppliedEffect where
  | text (uri : String) (edits : List TextEdit)
  | resource (op : ResourceOp)
  deriving Repr, DecidableEq

/-- The state `apply_edit` threads: the file system plus the ordered log
of effects already performed. -/
structure EditState where
  fs : Fs
  log : List AppliedEffect
  deriving Repr, DecidableEq

/-- The result of `apply_edit`: final state and the
`ApplyWorkspaceEditResponse { applied }` flag. -/
structure ApplyEditResult where
  state : EditState
  applied : Bool
  deriving Repr, DecidableEq

/-- The `DocumentChanges::Operations` loop of `apply_edit`: strictly
sequential; a failing resource operation aborts with `applied = false`,
leaving earlier effects in place. -/
def applyOps (ops : List DocumentChangeOperation) (st : EditState) : ApplyEditResult :=
  match ops with
  | [] => { state := st, applied := true }
  | DocumentChangeOperation.edit e :: rest =>
    applyOps rest { st with log := st.log ++ [AppliedEffect.text e.uri e.edits] }
  | DocumentChangeOperation.op op :: rest =>
    match apply_document_resource_op op st.fs with
    | Except.ok fs' =>
      applyOps rest { fs := fs', log := st.log ++ [AppliedEffect.resource op] }
    | Except.error _ => { state := st, applied := false }

/-- Rust `apply_edit` from `workspace.rs`. Text edits are delegated to the
external `apply_text_edits` and recorded in the effect log; only resource
operations can fail. -/
def apply_edit (edit : WorkspaceEdit) (st : EditState) : ApplyEditResult :=
  match edit.document_changes with
  | some (DocumentChanges.edits edits) =>
    { state :=
        { st with
          log := st.log ++ edits.map (fun e => AppliedEffect.text e.uri e.edits) }
      applied := true }
  | some (DocumentChanges.operations ops) => applyOps ops st
  | none =>
    match edit.changes with
    | some changes =>
      { state :=
          { st with
            log := st.log ++ changes.map (fun c => AppliedEffect.text c.1 c.2) }
        applied := true }
    | none => { state := st, applied := true }

/-! ## Completion menu assembly (`completion.rs`: `editor_completion`)

The coordinate converter `lsp_range_to_kakoune(&range, &document.text,
ctx.offset_encoding)` lives in `position.rs`, outside the excerpt; since
the document text and offset encoding are fixed for one response, it is
passed in as an arbitrary function `conv`. -/

/-- An editor-native (Kakoune) position: 1-based line/column in the
editor's units. -/
structure KakounePosition where
  line : Nat
  column : Nat
  deriving Repr, DecidableEq

/-- An editor-native range. -/
structure KakouneRange where
  start : KakounePosition
  «end» : KakounePosition
  deriving Repr, DecidableEq

/-- Rust `lsp_types::CompletionTextEdit`. -/
inductive CompletionTextEdit where
  | edit (text_edit : TextEdit)
  | insertAndReplace (replace : LspRange) (new_text : String)
  deriving Repr, DecidableEq

/-- Rust `lsp_types::CompletionItem`, restricted to the fields that determine
the menu's insertion texts and shared offset (kind, detail,
documentation, filter text and the snippet flag only shape the emitted
strings, never the offset or whether a menu is emitted). -/
structure CompletionItem where
  label : String
  text_edit : Option CompletionTextEdit
  insert_text : Option String
  additional_text_edits : Option (List TextEdit)
  deriving Repr, DecidableEq

/-- The mutable pair `(inferred_offset, can_infer_offset)` threaded
through the candidate loop of `editor_completion`. -/
structure InferState where
  inferred_offset : Option Nat
  can_infer_offset : Bool
  deriving Repr, DecidableEq

/-- The body of the candidate loop of `editor_completion` that computes
`insert_text` and updates the offset-inference state, translated from the
`x.text_edit.and_then(…).or(x.insert_text).unwrap_or(x.label)` chain.
`docPresent` models whether `ctx.documents` has an entry for
`meta.buffile` (constant across one response); `conv` is the external
`lsp_range_to_kakoune` specialized to this document; `pos` is
`params.position`. -/
def completion_insert_text (conv : LspRange → KakouneRange)
    (pos : KakounePosition) (docPresent : Bool)
    (st : InferState) (x : CompletionItem) : InferState × String :=
  match x.text_edit with
  | none => (st, (x.insert_text.getD x.label))
  | some cte =>
    if !docPresent then
      -- `warn!("No document in context…"); can_infer_offset = false; None`
      ({ st with can_infer_offset := false }, x.insert_text.getD x.label)
    else
      match cte with
      | CompletionTextEdit.edit text_edit =>
        let range := conv text_edit.range
        let st' :=
          if st.can_infer_offset then
            match st.inferred_offset with
            | none => { st with inferred_offset := some range.start.column }
            | some offset =>
              if offset ≠ range.start.column then
                { inferred_offset := none, can_infer_offset := false }
              else st
          else st
        let honored : Option String :=
          if range.start.line = pos.line ∧ range.«end».line = pos.line ∧
              (range.«end».column = pos.column ∨ range.«end».column + 1 = pos.column) then
            some text_edit.new_text
          else
            none
        (st', (honored.or x.insert_text).getD x.label)
      | CompletionTextEdit.insertAndReplace _ _ =>
        ({ st with can_infer_offset := false }, x.insert_text.getD x.label)

/-- The menu-install command `set window lsp_completions
{line}.{offset}@{version} {items}`, kept structured: its line, shared
offset, and the per-candidate insertion texts in order (the rest of each
pipe-delimited tuple is presentation built by external `util.rs`
helpers). -/
structure MenuCommand where
  line : Nat
  offset : Nat
  inserts : List String
  deriving Repr, DecidableEq

/-- One iteration of the candidate loop: update the inference state and
append this candidate's insertion text. -/
def completion_fold_step (conv : LspRange → KakouneRange)
    (pos : KakounePosition) (docPresent : Bool)
    (acc : InferState × List String) (x : CompletionItem) : InferState × List String :=
  let r := completion_insert_text conv pos docPresent acc.1 x
  (r.1, acc.2 ++ [r.2])

/-- Rust `editor_completion` from `completion.rs`: `none` models the early
`return` on an empty candidate list (no menu-install command emitted);
otherwise the command is emitted with the inferred offset when one
survived, else the fallback `params.completion.offset`. -/
def editor_completion (conv : LspRange → KakouneRange)
    (pos : KakounePosition) (fallback_offset : Nat) (docPresent : Bool)
    (items : List CompletionItem) : Option MenuCommand :=
  if items.isEmpty then none
  else
    let folded := items.foldl (completion_fold_step conv pos docPresent)
      ({ inferred_offset := none, can_infer_offset := true }, [])
    some
      { line := pos.line
        offset := folded.1.inferred_offset.getD fallback_offset
        inserts := folded.2 }

/-- Modelled from the amended C2 claim's words, for comparison with the
source-side fold: one step of the offset-inference scan.  The scan holds
a recorded start column and an inference-enabled flag.  While enabled, a
candidate carrying an `Edit`-variant explicit edit (document present)
contributes its converted start column regardless of the honored-range
check: a first contribution records its column, an equal later one
changes nothing, and a disagreeing one clears the recorded column and
disables inference.  A candidate carrying an `InsertAndReplace` edit, or
any explicit edit while the document is missing, disables inference for
later candidates but keeps the already-recorded column.  A candidate
without an explicit edit changes nothing. -/
def offset_inference_step (conv : LspRange → KakouneRange) (docPresent : Bool)
    (s : Option Nat × Bool) (x : CompletionItem) : Option Nat × Bool :=
  match x.text_edit with
  | none => s
  | some cte =>
    if !docPresent then (s.1, false)
    else
      match cte with
      | CompletionTextEdit.edit text_edit =>
        if s.2 then
          match s.1 with
          | none => (some (conv text_edit.range).start.column, true)
          | some recorded =>
            if recorded ≠ (conv text_edit.range).start.column then (none, false) else s
        else s
      | CompletionTextEdit.insertAndReplace _ _ => (s.1, false)

/-- Modelled from the amended C2 claim's words: the column recorded after
scanning the whole response, starting with no recorded column and
inference enabled. -/
def offset_inference_scan (conv : LspRange → KakouneRange) (docPresent : Bool)
    (items : List CompletionItem) : Option Nat :=
  (items.foldl (offset_inference_step conv docPresent) (none, true)).1

/-- A concrete coordinate converter for witnesses: protocol line/character
read back as editor line/column unchanged. -/
def convLineColumn : LspRange → KakouneRange := fun r =>
  { start := { line := r.start.line, column := r.start.character }
    «end» := { line := r.«end».line, column := r.«end».character } }

/-- A concrete converter in the editor-to-protocol direction, for
witnesses of the acceptance path. -/
def convColumnLine : KakouneRange → LspRange := fun r =>
  { start := { line := r.start.line, character := r.start.column }
    «end» := { line := r.«end».line, character := r.«end».column } }

/-! ## Completion-item resolve (`completion.rs`:
`completion_item_resolve`, `editor_completion_item_resolve`) -/

/-- Outcome of `completion_item_resolve`: the `-1` sentinel returns
without sending anything; a valid index sends a resolve request for the
stored item; any other index panics on the out-of-bounds
`ctx.completion_items[index]` access (a negative index cast `as usize`
is far out of bounds). -/
inductive ResolveAction where
  | noop
  | panicked
  | request (item : CompletionItem)
  deriving Repr, DecidableEq

/-- Rust `completion_item_resolve` from `completion.rs`, acting on the stored
`ctx.completion_items`. -/
def completion_item_resolve (completion_items : List CompletionItem)
    (completion_item_index : Int) : ResolveAction :=
  if completion_item_index = -1 then ResolveAction.noop
  else if completion_item_index < 0 then ResolveAction.panicked
  else
    match completion_items.get? completion_item_index.toNat with
    | some item => ResolveAction.request item
    | none => ResolveAction.panicked

/-- Rust `editor_completion_item_resolve` from `completion.rs`: the list of
additional text edits handed to `apply_text_edits`, empty when the match
falls through to `_ => ()`. -/
def editor_completion_item_resolve (item result : CompletionItem) : List TextEdit :=
  match (item.additional_text_edits.getD []).length, result.additional_text_edits with
  | 0, some resolved_edits => resolved_edits
  | _, _ => []

/-! ## Completion acceptance (`workspace.rs`:
`apply_completion_edit_from_editor`, `apply_completion_edit`,
`without_last_character`) -/

/-- Rust `without_last_character` from `workspace.rs`: everything before
the final character's byte index, i.e. all characters but the last
(`char_indices().last()` is `None` on the empty string, which maps to the
empty prefix). -/
def without_last_character (s : String) : String :=
  { data := s.data.dropLast }

/-- A client's pending completion edits, keyed by label. -/
abbrev ClientEdits := List (String × CompletionTextEdit)

/-- Rust `ctx.completion_text_edits`: per-client pending completion edits;
the client key is `meta.client : Option<String>`. -/
abbrev CompletionTextEdits := List (Option String × ClientEdits)

/-- Map lookup for the per-client table. -/
def lookupClient (m : CompletionTextEdits) (client : Option String) : Option ClientEdits :=
  match m with
  | [] => none
  | (c, es) :: rest => if c = client then some es else lookupClient rest client

/-- Replace a client's edits table. -/
def setClient (m : CompletionTextEdits) (client : Option String) (es : ClientEdits) :
    CompletionTextEdits :=
  match m with
  | [] => [(client, es)]
  | (c, v) :: rest =>
    if c = client then (c, es) :: rest else (c, v) :: setClient rest client es

/-- Rust `HashMap::remove_entry`: the removed `(key, value)` pair and the
remaining entries, or `none` when the key is absent. -/
def remove_entry (label : String) (m : ClientEdits) :
    Option ((String × CompletionTextEdit) × ClientEdits) :=
  match m with
  | [] => none
  | (k, v) :: rest =>
    if k = label then some ((k, v), rest)
    else (remove_entry label rest).map (fun r => (r.1, (k, v) :: r.2))

/-- Outcome of `apply_completion_edit_from_editor`: the early-return
warning when the client has no table at all, the warning no-op when no
label matches, or the accepted `(label, edit)` pair handed on to
`apply_completion_edit`. -/
inductive AcceptOutcome where
  | warnNoClient
  | warnNotFound
  | accepted (completion_label : String) (completion_text_edit : CompletionTextEdit)
  deriving Repr, DecidableEq

/-- Rust `apply_completion_edit_from_editor` from `workspace.rs`: look up the
pending edit by the accepted label, retrying with the last character
stripped; afterwards (accepted or not) clear the client's pending
entries. Returns the final table and the outcome. -/
def apply_completion_edit_from_editor (client : Option String) (label : String)
    (completion_text_edits : CompletionTextEdits) : CompletionTextEdits × AcceptOutcome :=
  match lookupClient completion_text_edits client with
  | none => (completion_text_edits, AcceptOutcome.warnNoClient)
  | some client_completion_text_edits =>
    let saved_text_edit :=
      (remove_entry label client_completion_text_edits).or
        (remove_entry (without_last_character label) client_completion_text_edits)
    let outcome :=
      match saved_text_edit with
      | some ((completion_label, completion_text_edit), _) =>
        AcceptOutcome.accepted completion_label completion_text_edit
      | none => AcceptOutcome.warnNotFound
    -- `map.clear()` runs in either case.
    (setClient completion_text_edits client [], outcome)

/-- Outcome of `apply_completion_edit`: the two `error!` early returns,
the `assert!(left_range.start != left_range.end)` panic, or the edits
passed to `apply_text_edits`. -/
inductive CompletionEditOutcome where
  | parseError
  | noDocument
  | panicked
  | applied (edits : List TextEdit)
  deriving Repr, DecidableEq

/-- Rust `apply_completion_edit` from `workspace.rs`.  `coordinates` is the
result of splitting `params.range` on `,`/`.` and parsing the pieces
(`filter_map` keeps only the parseable ones); `docPresent` models the
`ctx.documents` lookup; `convRange` is the external
`kakoune_range_to_lsp` and `cursor` the converted
`ctx.completion_cursor_position`, both specialized to the document.
Arithmetic on `u64` character offsets is `Nat` arithmetic
(`saturating_sub` is `Nat` subtraction). -/
def apply_completion_edit (coordinates : List Nat) (docPresent : Bool)
    (convRange : KakouneRange → LspRange) (cursor : LspPos)
    (completion_label : String) (completion_text_edit : CompletionTextEdit) :
    CompletionEditOutcome :=
  if h : coordinates.length = 4 then
    if !docPresent then CompletionEditOutcome.noDocument
    else
      let inserted_range := convRange
        { start := { line := coordinates[0], column := coordinates[1] }
          «end» := { line := coordinates[2], column := coordinates[3] } }
      let text_edit :=
        match completion_text_edit with
        | CompletionTextEdit.edit e => e
        | CompletionTextEdit.insertAndReplace replace new_text =>
          { range := replace, new_text := new_text }
      -- left edit: replace the speculatively inserted label.
      let left_range : LspRange :=
        { start := text_edit.range.start
          «end» :=
            { text_edit.range.start with
              character := text_edit.range.start.character + completion_label.length } }
      let left_edit : TextEdit := { range := left_range, new_text := text_edit.new_text }
      -- right edit: delete leftover text right of the cursor.
      let cursor_width := 1
      let range_right_of_cursor := text_edit.range.«end».character - cursor.character
      let right_range : LspRange :=
        { start :=
            { inserted_range.«end» with
              character := inserted_range.«end».character + cursor_width }
          «end» :=
            { inserted_range.«end» with
              character :=
                inserted_range.«end».character + cursor_width + range_right_of_cursor } }
      let right_edit : TextEdit := { range := right_range, new_text := "" }
      if left_range.start = left_range.«end» then CompletionEditOutcome.panicked
      else
        CompletionEditOutcome.applied
          ([left_edit] ++
            if right_edit.range.start ≠ right_edit.range.«end» then [right_edit] else [])
  else CompletionEditOutcome.parseError

/-! ## Settings projector: theorems -/

/-- Writing back a value that is already stored under a key leaves the
object unchanged. -/
theorem setField_of_lookupField :
    ∀ (t : List (String × JVal)) (key : String) (v : JVal),
      lookupField key t = some v → setField key v t = t := by
  intro t key v h
  induction t with
  | nil => simp [lookupField] at h
  | cons hd tl ih =>
    obtain ⟨k, w⟩ := hd
    by_cases hk : k = key
    · subst hk
      simp [lookupField] at h
      simp [setField, h]
    · simp [lookupField, hk] at h
      simp [setField, hk, ih h]

/-- Inserting along any path into an empty object never errors. -/
theorem insert_value_nil_snd :
    ∀ (path : List String) (local_key : String) (value : JVal),
      (insert_value path [] local_key value).2 = none := by
  intro path
  induction path with
  | nil => intro lk v; simp [insert_value, lookupField]
  | cons key rest ih => intro lk v; simp [insert_value, lookupField, ih]

/-- When `insert_value` reports the `Expected path … to be object`
error, the target object is unchanged: this collision really does drop
the offending key. -/
theorem insert_value_notObject_fst :
    ∀ (path : List String) (target : List (String × JVal)) (local_key : String) (value : JVal),
      (insert_value path target local_key value).2 = some InsertErr.notObject →
      (insert_value path target local_key value).1 = target := by
  intro path
  induction path with
  | nil =>
    intro target lk v h
    unfold insert_value at h
    split at h <;> simp_all
  | cons key rest ih =>
    intro target lk v
    unfold insert_value
    split
    · rename_i m heq
      intro h
      simp only at h ⊢
      rw [ih m lk v h]
      exact setField_of_lookupField target key (JVal.obj m) heq
    · intro h
      rfl
    · intro h
      simp only at h
      rw [insert_value_nil_snd rest lk v] at h
      exact absurd h (by simp)

/-- Claim C4, counterexample: projecting the flat table
`{"a.b.c": 1, "a.b": 2}` does not retain `{a: {b: {c: 1}}}` — in the
sorted iteration order of the settings table (`"a.b"` before `"a.b.c"`)
the projected result is `{a: {b: 2}}`, and the result is `{a: {b: 2}}`
under the reverse iteration order as well, so the claimed result is wrong
either way. -/
theorem settings_projection_collision_cex :
    (did_change_configuration [("a.b", JVal.num 2), ("a.b.c", JVal.num 1)]).1
        = [("a", JVal.obj [("b", JVal.num 2)])]
    ∧ (did_change_configuration [("a.b", JVal.num 2), ("a.b.c", JVal.num 1)]).1
        ≠ [("a", JVal.obj [("b", JVal.obj [("c", JVal.num 1)])])]
    ∧ (did_change_configuration [("a.b.c", JVal.num 1), ("a.b", JVal.num 2)]).1
        ≠ [("a", JVal.obj [("b", JVal.obj [("c", JVal.num 1)])])] := by
  refine ⟨rfl, ?_, ?_⟩
  · have h : (did_change_configuration [("a.b", JVal.num 2), ("a.b.c", JVal.num 1)]).1
        = [("a", JVal.obj [("b", JVal.num 2)])] := rfl
    rw [h]
    simp
  · have h : (did_change_configuration [("a.b.c", JVal.num 1), ("a.b", JVal.num 2)]).1
        = [("a", JVal.obj [("b", JVal.num 2)])] := rfl
    rw [h]
    simp

/-- Claim C4, amended: projecting `{"a.b.c": 1, "a.b": 2}` yields
`{a: {b: 2}}`, with the conflicting key reported by a warning: in the
settings table's sorted iteration order `"a.b"` is projected first and
`"a.b.c"` is then dropped (its path crosses the leaf `"a.b"`); in the
reverse order `"a.b"` is warned about but its value still overwrites the
already-built nested object, because the leaf-level insert happens before
the collision is reported.  In general only a key whose *path* crosses an
already-set leaf is dropped with a warning (the object is unchanged, the
rest of the table is still projected); a key whose *leaf* collides
overwrites the old value and warns. -/
theorem settings_projection_collision_amended :
    (did_change_configuration [("a.b", JVal.num 2), ("a.b.c", JVal.num 1)]
        = ([("a", JVal.obj [("b", JVal.num 2)])],
           [SettingsWarning.couldNotSet "a.b.c" InsertErr.notObject])
      ∧ did_change_configuration [("a.b.c", JVal.num 1), ("a.b", JVal.num 2)]
        = ([("a", JVal.obj [("b", JVal.num 2)])],
           [SettingsWarning.couldNotSet "a.b" InsertErr.replacedOld]))
    ∧ (∀ (path : List String) (target : List (String × JVal)) (local_key : String) (value : JVal),
        (insert_value path target local_key value).2 = some InsertErr.notObject →
        (insert_value path target local_key value).1 = target) := by
  exact ⟨⟨rfl, rfl⟩, insert_value_notObject_fst⟩

/-- Witness for the amended C4 theorem's general conjunct, at the claim's
own collision: inserting `"a.b.c" ↦ 1` into `{a: {b: 2}}` reports the
path collision and leaves the object unchanged. -/
theorem settings_projection_collision_amended_witness :
    (insert_value ["a", "b"] [("a", JVal.obj [("b", JVal.num 2)])] "c" (JVal.num 1)).2
        = some InsertErr.notObject
    ∧ (insert_value ["a", "b"] [("a", JVal.obj [("b", JVal.num 2)])] "c" (JVal.num 1)).1
        = [("a", JVal.obj [("b", JVal.num 2)])] :=
  ⟨rfl, settings_projection_collision_amended.2 ["a", "b"]
    [("a", JVal.obj [("b", JVal.num 2)])] "c" (JVal.num 1) rfl⟩

/-- Splitting never produces an empty list of pieces, matching Rust's
`str::split`. -/
theorem splitOnChar_ne_nil : ∀ (sep : Char) (cs : List Char), splitOnChar sep cs ≠ [] := by
  intro sep cs
  induction cs with
  | nil => simp [splitOnChar]
  | cons c rest ih =>
    simp only [splitOnChar]
    split
    · simp
    · split <;> simp

/-- Claim C5 (a code bug): a flat key with a trailing dot is *not*
dropped — `split('.').next_back()` always yields a segment (the empty
string for a trailing dot), so the guard that was written to warn about
an empty local name is unreachable and `{"a.": 1}` is projected to
`{a: {"": 1}}` with no warning at all. -/
theorem settings_trailing_dot_projected :
    did_change_configuration [("a.", JVal.num 1)]
        = ([("a", JVal.obj [("", JVal.num 1)])], [])
    ∧ ∀ (raw_key : String), splitKeyParts raw_key ≠ none := by
  constructor
  · rfl
  · intro raw_key
    unfold splitKeyParts
    cases hg : (strSplit '.' raw_key).getLast? with
    | some local_key => simp
    | none =>
      rw [List.getLast?_eq_none_iff] at hg
      have : splitOnChar '.' raw_key.toList = [] := by
        by_contra hne
        unfold strSplit at hg
        exact hne (List.map_eq_nil_iff.mp hg)
      exact absurd this (splitOnChar_ne_nil _ _)

/-! ## Workspace-edit application: theorems -/

/-- Unfolding the operation loop on a leading text edit. -/
theorem applyOps_cons_edit (e : TextDocumentEdit) (ops : List DocumentChangeOperation)
    (st : EditState) :
    applyOps (DocumentChangeOperation.edit e :: ops) st
      = applyOps ops { st with log := st.log ++ [AppliedEffect.text e.uri e.edits] } :=
  rfl

/-- Unfolding the operation loop on a leading resource operation that
succeeds. -/
theorem applyOps_cons_op_ok (rop : ResourceOp) (ops : List DocumentChangeOperation)
    (st : EditState) (fs' : Fs)
    (h : apply_document_resource_op rop st.fs = Except.ok fs') :
    applyOps (DocumentChangeOperation.op rop :: ops) st
      = applyOps ops { fs := fs', log := st.log ++ [AppliedEffect.resource rop] } := by
  show (match apply_document_resource_op rop st.fs with
        | Except.ok fs' =>
          applyOps ops { fs := fs', log := st.log ++ [AppliedEffect.resource rop] }
        | Except.error _ => { state := st, applied := false })
      = applyOps ops { fs := fs', log := st.log ++ [AppliedEffect.resource rop] }
  rw [h]

/-- Unfolding the operation loop on a leading resource operation that
fails. -/
theorem applyOps_cons_op_error (rop : ResourceOp) (ops : List DocumentChangeOperation)
    (st : EditState) (e : String)
    (h : apply_document_resource_op rop st.fs = Except.error e) :
    applyOps (DocumentChangeOperation.op rop :: ops) st = { state := st, applied := false } := by
  show (match apply_document_resource_op rop st.fs with
        | Except.ok fs' =>
          applyOps ops { fs := fs', log := st.log ++ [AppliedEffect.resource rop] }
        | Except.error _ => { state := st, applied := false })
      = { state := st, applied := false }
  rw [h]

/-- A successfully executed prefix of an operation batch composes: the
remaining operations continue from the prefix's final state. -/
theorem applyOps_append_ok :
    ∀ (pre rest : List DocumentChangeOperation) (st st' : EditState),
      applyOps pre st = { state := st', applied := true } →
      applyOps (pre ++ rest) st = applyOps rest st' := by
  intro pre
  induction pre with
  | nil =>
    intro rest st st' h
    unfold applyOps at h
    simp at h
    rw [List.nil_append, h]
  | cons op ops ih =>
    intro rest st st' h
    cases op with
    | edit e =>
      rw [List.cons_append, applyOps_cons_edit]
      rw [applyOps_cons_edit] at h
      exact ih rest _ st' h
    | op rop =>
      rw [List.cons_append]
      cases hres : apply_document_resource_op rop st.fs with
      | ok fs' =>
        rw [applyOps_cons_op_ok rop (ops ++ rest) st fs' hres]
        rw [applyOps_cons_op_ok rop ops st fs' hres] at h
        exact ih rest _ st' h
      | error err =>
        rw [applyOps_cons_op_error rop ops st err hres] at h
        simp at h

/-- When an operation batch reports success, every operation in it was
executed: the effect log grew by exactly one entry per operation. -/
theorem applyOps_log_length :
    ∀ (ops : List DocumentChangeOperation) (st : EditState),
      (applyOps ops st).applied = true →
      (applyOps ops st).state.log.length = st.log.length + ops.length := by
  intro ops
  induction ops with
  | nil => intro st h; simp [applyOps]
  | cons op rest ih =>
    intro st h
    cases op with
    | edit e =>
      rw [applyOps_cons_edit] at h ⊢
      rw [ih _ h]
      simp
      omega
    | op rop =>
      cases hres : apply_document_resource_op rop st.fs with
      | ok fs' =>
        rw [applyOps_cons_op_ok rop rest st fs' hres] at h ⊢
        rw [ih _ h]
        simp
        omega
      | error err =>
        rw [applyOps_cons_op_error rop rest st err hres] at h
        simp at h

/-- Claim C1: a workspace-edit operation batch executes strictly in batch
order; the first resource operation that fails aborts immediately with
`applied = false`, the effects of the earlier successful operations stay
in place (the final state is exactly the state after the prefix — no
rollback) and no operation after the failing one executes; and
`applied = true` is only returned when every operation in the batch
executed without error (one log entry per operation). -/
theorem apply_edit_fail_fast :
    (∀ (pre post : List DocumentChangeOperation) (rop : ResourceOp)
        (st st' : EditState) (e : String),
        applyOps pre st = { state := st', applied := true } →
        apply_document_resource_op rop st'.fs = Except.error e →
        apply_edit
          { document_changes := some (DocumentChanges.operations
              (pre ++ DocumentChangeOperation.op rop :: post)),
            changes := none } st
          = { state := st', applied := false })
    ∧ (∀ (ops : List DocumentChangeOperation) (st : EditState),
        (apply_edit
          { document_changes := some (DocumentChanges.operations ops),
            changes := none } st).applied = true →
        (apply_edit
          { document_changes := some (DocumentChanges.operations ops),
            changes := none } st).state.log.length = st.log.length + ops.length) := by
  constructor
  · intro pre post rop st st' e hpre herr
    show applyOps (pre ++ DocumentChangeOperation.op rop :: post) st = _
    rw [applyOps_append_ok pre _ st st' hpre]
    unfold applyOps
    rw [herr]
  · intro ops st
    exact applyOps_log_length ops st

/-- Witness for C1 at the spec's own three-operation example: a batch
whose second operation (deleting a non-empty directory without
`recursive`) fails yields `applied = false`, operation 1's created file
is observable in the final state, and operation 3 left no trace. -/
theorem apply_edit_fail_fast_witness :
    apply_edit
      { document_changes := some (DocumentChanges.operations
          [DocumentChangeOperation.op (ResourceOp.create { uri := ["a"], options := none }),
           DocumentChangeOperation.op (ResourceOp.delete { uri := ["d"], options := none }),
           DocumentChangeOperation.op (ResourceOp.create { uri := ["b"], options := none })]),
        changes := none }
      { fs := [(["d"], FsEntry.dir), (["d", "f"], FsEntry.file "x")], log := [] }
      = { state :=
            { fs := [(["d"], FsEntry.dir), (["d", "f"], FsEntry.file "x"),
                     (["a"], FsEntry.file "")]
              log := [AppliedEffect.resource
                        (ResourceOp.create { uri := ["a"], options := none })] }
          applied := false } :=
  apply_edit_fail_fast.1
    [DocumentChangeOperation.op (ResourceOp.create { uri := ["a"], options := none })]
    [DocumentChangeOperation.op (ResourceOp.create { uri := ["b"], options := none })]
    (ResourceOp.delete { uri := ["d"], options := none })
    { fs := [(["d"], FsEntry.dir), (["d", "f"], FsEntry.file "x")], log := [] }
    { fs := [(["d"], FsEntry.dir), (["d", "f"], FsEntry.file "x"), (["a"], FsEntry.file "")]
      log := [AppliedEffect.resource (ResourceOp.create { uri := ["a"], options := none })] }
    "Directory not empty"
    rfl
    rfl

/-- Claim C10: a workspace edit with neither `document_changes` nor
`changes` performs no text edits and no resource operations and returns
`applied = true`. -/
theorem apply_edit_vacuous_success :
    ∀ (st : EditState),
      apply_edit { document_changes := none, changes := none } st
        = { state := st, applied := true } :=
  fun _ => rfl

/-! ## Resource operations: theorems -/

/-- Filtering out everything below `p` (inclusive) removes `p`'s entry. -/
theorem fsLookup_filter_below :
    ∀ (fs : Fs) (p : FsPath),
      fsLookup (fs.filter (fun e => ¬ p <+: e.1)) p = none := by
  intro fs p
  induction fs with
  | nil => rfl
  | cons hd tl ih =>
    rw [List.filter_cons]
    by_cases hp : p <+: hd.1
    · rw [if_neg (by simpa using hp)]
      exact ih
    · rw [if_pos (by simpa using hp)]
      have hne : hd.1 ≠ p := by
        intro hcontra
        exact hp (hcontra ▸ List.prefix_refl p)
      unfold fsLookup
      rw [if_neg hne]
      exact ih

/-- Claim C6: `Create` with `ignore_if_exists` set and `overwrite` unset
on an existing path is a successful no-op, and otherwise writes an empty
file over whatever was there; `Delete` on a non-empty directory without
`recursive` fails, with `recursive` it succeeds and the directory is
gone, on a file it removes the file, and on a path that is neither file
nor directory it is a successful no-op. -/
theorem resource_op_semantics :
    (∀ (fs : Fs) (op : CreateFile),
        create_ignore_if_exists op.options = true → fsExists fs op.uri = true →
        apply_document_resource_op (ResourceOp.create op) fs = Except.ok fs)
    ∧ (∀ (fs : Fs) (op : CreateFile),
        create_ignore_if_exists op.options = false ∨ fsExists fs op.uri = false →
        apply_document_resource_op (ResourceOp.create op) fs
          = Except.ok (fsSet fs op.uri (FsEntry.file "")))
    ∧ (∀ (fs : Fs) (op : DeleteFile),
        fsIsDir fs op.uri = true → delete_recursive op.options = false →
        fsHasChild fs op.uri = true →
        apply_document_resource_op (ResourceOp.delete op) fs
          = Except.error "Directory not empty")
    ∧ (∀ (fs : Fs) (op : DeleteFile),
        fsIsDir fs op.uri = true → delete_recursive op.options = true →
        apply_document_resource_op (ResourceOp.delete op) fs
            = Except.ok (fs.filter (fun e => ¬ op.uri <+: e.1))
          ∧ fsExists (fs.filter (fun e => ¬ op.uri <+: e.1)) op.uri = false)
    ∧ (∀ (fs : Fs) (op : DeleteFile),
        fsIsDir fs op.uri = false → fsIsFile fs op.uri = true →
        apply_document_resource_op (ResourceOp.delete op) fs
          = Except.ok (fsRemove fs op.uri))
    ∧ (∀ (fs : Fs) (op : DeleteFile),
        fsIsDir fs op.uri = false → fsIsFile fs op.uri = false →
        apply_document_resource_op (ResourceOp.delete op) fs = Except.ok fs) := by
  refine ⟨?_, ?_, ?_, ?_, ?_, ?_⟩
  · intro fs op h1 h2
    unfold apply_document_resource_op
    simp [h1, h2]
  · intro fs op h
    unfold apply_document_resource_op
    rcases h with h | h <;> simp [h, fsWrite]
  · intro fs op hdir hrec hchild
    unfold apply_document_resource_op
    simp [hdir, hrec, fsRemoveDir, hchild]
  · intro fs op hdir hrec
    constructor
    · unfold apply_document_resource_op
      simp [hdir, hrec, fsRemoveDirAll]
    · unfold fsExists
      rw [fsLookup_filter_below]
      rfl
  · intro fs op hdir hfile
    unfold apply_document_resource_op
    simp [hdir, hfile, fsRemoveFile]
  · intro fs op hdir hfile
    unfold apply_document_resource_op
    simp [hdir, hfile]

/-- Witness for C6 at concrete file systems: each clause of the theorem
applied to a small file system containing a directory `d` with one file
and a file `f`. -/
theorem resource_op_semantics_witness :
    apply_document_resource_op
        (ResourceOp.create
          { uri := ["f"]
            options := some { overwrite := some false, ignore_if_exists := some true } })
        [(["f"], FsEntry.file "x")]
      = Except.ok [(["f"], FsEntry.file "x")]
    ∧ apply_document_resource_op
        (ResourceOp.create { uri := ["f"], options := none })
        [(["f"], FsEntry.file "x")]
      = Except.ok [(["f"], FsEntry.file "")]
    ∧ apply_document_resource_op
        (ResourceOp.delete { uri := ["d"], options := none })
        [(["d"], FsEntry.dir), (["d", "f"], FsEntry.file "x")]
      = Except.error "Directory not empty"
    ∧ apply_document_resource_op
        (ResourceOp.delete { uri := ["d"], options := some { recursive := some true } })
        [(["d"], FsEntry.dir), (["d", "f"], FsEntry.file "x")]
      = Except.ok []
    ∧ apply_document_resource_op
        (ResourceOp.delete { uri := ["f"], options := none })
        [(["f"], FsEntry.file "x")]
      = Except.ok []
    ∧ apply_document_resource_op
        (ResourceOp.delete { uri := ["g"], options := none })
        [(["f"], FsEntry.file "x")]
      = Except.ok [(["f"], FsEntry.file "x")] :=
  ⟨resource_op_semantics.1 _ _ rfl rfl,
   resource_op_semantics.2.1 _ _ (Or.inl rfl),
   resource_op_semantics.2.2.1 _ _ rfl rfl rfl,
   (resource_op_semantics.2.2.2.1 [(["d"], FsEntry.dir), (["d", "f"], FsEntry.file "x")]
     { uri := ["d"], options := some { recursive := some true } }
     rfl rfl).1,
   resource_op_semantics.2.2.2.2.1 _ _ rfl rfl,
   resource_op_semantics.2.2.2.2.2 _ _ rfl rfl⟩

/-! ## Completion menu assembly: theorems -/

/-- On a non-empty candidate list the menu-install command is always
emitted, with the folded inference state's offset (or the fallback). -/
theorem editor_completion_ne_nil (conv : LspRange → KakouneRange) (pos : KakounePosition)
    (fallback_offset : Nat) (docPresent : Bool) (items : List CompletionItem)
    (h : items ≠ []) :
    editor_completion conv pos fallback_offset docPresent items
      = some
          { line := pos.line
            offset := (items.foldl (completion_fold_step conv pos docPresent)
                ({ inferred_offset := none, can_infer_offset := true }, [])).1.inferred_offset.getD
                fallback_offset
            inserts := (items.foldl (completion_fold_step conv pos docPresent)
                ({ inferred_offset := none, can_infer_offset := true }, [])).2 } := by
  cases items with
  | nil => exact absurd rfl h
  | cons x rest => rfl

/-- With the document missing from Session State, the candidate loop
never records an offset and each candidate falls back to its
`insert_text` (or its label). -/
theorem completion_fold_doc_absent :
    ∀ (conv : LspRange → KakouneRange) (pos : KakounePosition)
      (items : List CompletionItem) (st : InferState) (acc : List String),
      ((items.foldl (completion_fold_step conv pos false) (st, acc)).1.inferred_offset
          = st.inferred_offset)
      ∧ (items.foldl (completion_fold_step conv pos false) (st, acc)).2
          = acc ++ items.map (fun x => x.insert_text.getD x.label) := by
  intro conv pos items
  induction items with
  | nil => intro st acc; simp
  | cons x rest ih =>
    intro st acc
    rw [List.foldl_cons]
    have hstep : completion_fold_step conv pos false (st, acc) x
        = ({ st with can_infer_offset := st.can_infer_offset && x.text_edit.isNone },
           acc ++ [x.insert_text.getD x.label]) := by
      unfold completion_fold_step completion_insert_text
      cases hte : x.text_edit with
      | none => simp
      | some cte => simp
    rw [hstep]
    constructor
    · rw [(ih _ _).1]
    · rw [(ih _ _).2]
      simp

/-- Claim C3: when the candidate's referenced document is not in Session
State, every candidate's explicit edit is unusable (the buffer name — and
hence the lookup — is the same for all candidates of one response), menu
assembly still succeeds, no offset is inferred, and the request's
original cursor offset is the shared offset of the emitted command. -/
theorem completion_missing_document_fallback :
    ∀ (conv : LspRange → KakouneRange) (pos : KakounePosition)
      (fallback_offset : Nat) (items : List CompletionItem),
      items ≠ [] →
      editor_completion conv pos fallback_offset false items
        = some
            { line := pos.line
              offset := fallback_offset
              inserts := items.map (fun x => x.insert_text.getD x.label) } := by
  intro conv pos fallback_offset items h
  rw [editor_completion_ne_nil conv pos fallback_offset false items h]
  have h1 := (completion_fold_doc_absent conv pos items
    { inferred_offset := none, can_infer_offset := true } []).1
  have h2 := (completion_fold_doc_absent conv pos items
    { inferred_offset := none, can_infer_offset := true } []).2
  rw [h1, h2]
  simp

/-- Witness for C3: a document-less response with one explicit-edit
candidate still renders, with the fallback offset and the label as
insertion text. -/
theorem completion_missing_document_fallback_witness :
    editor_completion convLineColumn { line := 1, column := 10 } 10 false
      [{ label := "foo"
         text_edit := some (CompletionTextEdit.edit
           { range := { start := { line := 1, character := 5 }
                        «end» := { line := 1, character := 7 } }
             new_text := "bar" })
         insert_text := none
         additional_text_edits := none }]
      = some { line := 1, offset := 10, inserts := ["foo"] } :=
  completion_missing_document_fallback convLineColumn { line := 1, column := 10 } 10 _
    (by simp)

/-- The projection of one candidate-loop step onto the inference state
agrees with the spec-side scan step: the loop's insert-text computation
does not feed back into offset inference. -/
theorem completion_fold_step_projection :
    ∀ (conv : LspRange → KakouneRange) (pos : KakounePosition) (docPresent : Bool)
      (st : InferState) (acc : List String) (x : CompletionItem),
      ((completion_fold_step conv pos docPresent (st, acc) x).1.inferred_offset,
       (completion_fold_step conv pos docPresent (st, acc) x).1.can_infer_offset)
        = offset_inference_step conv docPresent (st.inferred_offset, st.can_infer_offset) x := by
  intro conv pos docPresent st acc x
  unfold completion_fold_step completion_insert_text offset_inference_step
  cases hte : x.text_edit with
  | none => rfl
  | some cte =>
    cases docPresent with
    | false => rfl
    | true =>
      cases cte with
      | insertAndReplace r t => rfl
      | edit te =>
        cases hcan : st.can_infer_offset with
        | false => simp [hcan]
        | true =>
          cases ho : st.inferred_offset with
          | none => simp [hcan, ho]
          | some recorded =>
            by_cases hoc : recorded ≠ (conv te.range).start.column
            · simp [hcan, ho, hoc]
            · simp [hcan, ho, hoc]

/-- The whole candidate loop's inference state is the spec-side scan of
the same candidates. -/
theorem completion_fold_projection :
    ∀ (conv : LspRange → KakouneRange) (pos : KakounePosition) (docPresent : Bool)
      (items : List CompletionItem) (st : InferState) (acc : List String),
      ((items.foldl (completion_fold_step conv pos docPresent) (st, acc)).1.inferred_offset,
       (items.foldl (completion_fold_step conv pos docPresent) (st, acc)).1.can_infer_offset)
        = items.foldl (offset_inference_step conv docPresent)
            (st.inferred_offset, st.can_infer_offset) := by
  intro conv pos docPresent items
  induction items with
  | nil => intro st acc; rfl
  | cons x rest ih =>
    intro st acc
    rw [List.foldl_cons, List.foldl_cons]
    rcases hacc : completion_fold_step conv pos docPresent (st, acc) x with ⟨st', acc'⟩
    have hproj := completion_fold_step_projection conv pos docPresent st acc x
    rw [hacc] at hproj
    simp only at hproj
    rw [ih st' acc', hproj]

/-- Claim C2, amended: during completion assembly, offset inference scans
the candidates in order with a recorded start column and an
inference-enabled flag.  While enabled, every `Edit`-variant explicit
edit (document present) contributes its converted start column regardless
of the honored-range check — the first contribution records its column,
an equal later contribution changes nothing, and a disagreeing one clears
the recorded column and disables inference for the rest of the response,
so every candidate then uses the request's original cursor offset.  An
`InsertAndReplace` edit, or any explicit edit while the document is
missing, disables inference for later candidates *without clearing* an
already-recorded column.  The emitted menu's shared offset is the
recorded column when one survives the scan, else the request's original
cursor offset: in particular `[InsertAndReplace, Edit(col 5)]` emits the
fallback although its only `Edit`-variant edit has column 5, and
`[Edit(col 5), InsertAndReplace, Edit(col 4)]` emits 5 although its
`Edit`-variant edits disagree. -/
theorem completion_offset_inference_amended :
    (∀ (conv : LspRange → KakouneRange) (pos : KakounePosition)
        (fallback_offset : Nat) (docPresent : Bool) (items : List CompletionItem),
        items ≠ [] →
        (editor_completion conv pos fallback_offset docPresent items).map MenuCommand.offset
          = some ((offset_inference_scan conv docPresent items).getD fallback_offset))
    ∧ (editor_completion convLineColumn { line := 1, column := 10 } 99 true
        [{ label := "ir"
           text_edit := some (CompletionTextEdit.insertAndReplace
             { start := { line := 1, character := 5 }
               «end» := { line := 1, character := 10 } } "xx")
           insert_text := none
           additional_text_edits := none },
         { label := "aa"
           text_edit := some (CompletionTextEdit.edit
             { range := { start := { line := 1, character := 5 }
                          «end» := { line := 1, character := 10 } }
               new_text := "aaa" })
           insert_text := none
           additional_text_edits := none }]).map MenuCommand.offset = some 99
    ∧ (editor_completion convLineColumn { line := 1, column := 10 } 99 true
        [{ label := "aa"
           text_edit := some (CompletionTextEdit.edit
             { range := { start := { line := 1, character := 5 }
                          «end» := { line := 1, character := 10 } }
               new_text := "aaa" })
           insert_text := none
           additional_text_edits := none },
         { label := "ir"
           text_edit := some (CompletionTextEdit.insertAndReplace
             { start := { line := 1, character := 5 }
               «end» := { line := 1, character := 10 } } "xx")
           insert_text := none
           additional_text_edits := none },
         { label := "cc"
           text_edit := some (CompletionTextEdit.edit
             { range := { start := { line := 1, character := 4 }
                          «end» := { line := 1, character := 10 } }
               new_text := "ccc" })
           insert_text := none
           additional_text_edits := none }]).map MenuCommand.offset = some 5 := by
  refine ⟨?_, rfl, rfl⟩
  intro conv pos fallback_offset docPresent items hne
  rw [editor_completion_ne_nil conv pos fallback_offset docPresent items hne]
  have hpair := completion_fold_projection conv pos docPresent items
    { inferred_offset := none, can_infer_offset := true } []
  have hfst := congrArg Prod.fst hpair
  simp only at hfst
  unfold offset_inference_scan
  rw [← hfst]
  rfl

/-- Claim C2, counterexample: a single candidate whose explicit edit is
*not* honored (its range ends at column 7 while the cursor is at column
10, failing the end-column check) still contributes its start column 5 to
offset inference, so the emitted menu's shared offset is 5 — the claim
instead demands that only honored edits contribute, which would leave the
request's original cursor offset 10 in place. -/
theorem completion_offset_unhonored_cex :
    editor_completion convLineColumn { line := 1, column := 10 } 10 true
        [{ label := "foo"
           text_edit := some (CompletionTextEdit.edit
             { range := { start := { line := 1, character := 5 }
                          «end» := { line := 1, character := 7 } }
               new_text := "bar" })
           insert_text := none
           additional_text_edits := none }]
        = some { line := 1, offset := 5, inserts := ["foo"] }
    ∧ (some { line := 1, offset := 5, inserts := ["foo"] } : Option MenuCommand)
        ≠ some { line := 1, offset := 10, inserts := ["foo"] } := by
  constructor
  · rfl
  · decide

/-- Witness for the amended C2 theorem at the spec's agreeing example:
both explicit edits start at column 5 on the cursor line, the scan
records column 5, and the emitted menu's shared offset is exactly the
scan's result. -/
theorem completion_offset_inference_amended_witness :
    (editor_completion convLineColumn { line := 1, column := 10 } 99 true
        [{ label := "aa"
           text_edit := some (CompletionTextEdit.edit
             { range := { start := { line := 1, character := 5 }
                          «end» := { line := 1, character := 10 } }
               new_text := "aaa" })
           insert_text := none
           additional_text_edits := none },
         { label := "bb"
           text_edit := some (CompletionTextEdit.edit
             { range := { start := { line := 1, character := 5 }
                          «end» := { line := 1, character := 10 } }
               new_text := "bbb" })
           insert_text := none
           additional_text_edits := none }]).map MenuCommand.offset
      = some ((offset_inference_scan convLineColumn true
          [{ label := "aa"
             text_edit := some (CompletionTextEdit.edit
               { range := { start := { line := 1, character := 5 }
                            «end» := { line := 1, character := 10 } }
                 new_text := "aaa" })
             insert_text := none
             additional_text_edits := none },
           { label := "bb"
             text_edit := some (CompletionTextEdit.edit
               { range := { start := { line := 1, character := 5 }
                            «end» := { line := 1, character := 10 } }
                 new_text := "bbb" })
             insert_text := none
             additional_text_edits := none }]).getD 99)
    ∧ offset_inference_scan convLineColumn true
        [{ label := "aa"
           text_edit := some (CompletionTextEdit.edit
             { range := { start := { line := 1, character := 5 }
                          «end» := { line := 1, character := 10 } }
               new_text := "aaa" })
           insert_text := none
           additional_text_edits := none },
         { label := "bb"
           text_edit := some (CompletionTextEdit.edit
             { range := { start := { line := 1, character := 5 }
                          «end» := { line := 1, character := 10 } }
               new_text := "bbb" })
           insert_text := none
           additional_text_edits := none }] = some 5 :=
  ⟨completion_offset_inference_amended.1 convLineColumn { line := 1, column := 10 } 99 true _
     (by simp),
   rfl⟩

/-! ## Completion resolve and acceptance: theorems -/

/-- Claim C8: resolve with index `-1` is a no-op — no request is sent and
no state changes; and on a resolve response, additional text edits are
applied to the buffer exactly when the originally stored candidate had no
additional text edits and the resolved item carries some. -/
theorem resolve_sentinel_and_additional_edits :
    (∀ (completion_items : List CompletionItem),
        completion_item_resolve completion_items (-1) = ResolveAction.noop)
    ∧ (∀ (completion_items : List CompletionItem) (completion_item_index : Int)
        (item : CompletionItem),
        0 ≤ completion_item_index →
        completion_items.get? completion_item_index.toNat = some item →
        completion_item_resolve completion_items completion_item_index
          = ResolveAction.request item)
    ∧ (∀ (item result : CompletionItem),
        editor_completion_item_resolve item result ≠ []
          ↔ (item.additional_text_edits.getD [] = []
             ∧ ∃ es, result.additional_text_edits = some es ∧ es ≠ [])) := by
  refine ⟨?_, ?_, ?_⟩
  · intro completion_items
    unfold completion_item_resolve
    rw [if_pos rfl]
  · intro completion_items completion_item_index item hge hget
    unfold completion_item_resolve
    rw [if_neg (by omega), if_neg (by omega), hget]
  · intro item result
    unfold editor_completion_item_resolve
    cases hi : item.additional_text_edits with
    | none => cases hr : result.additional_text_edits <;> simp [hi, hr]
    | some l =>
      cases l with
      | nil => cases hr : result.additional_text_edits <;> simp [hi, hr]
      | cons e es => cases hr : result.additional_text_edits <;> simp [hi, hr]

/-- Witness for C8: on a two-candidate store, resolving index `-1` is the
no-op, resolving index `1` requests the stored second candidate, and a
response carrying one additional edit for an original without any leads
to a non-empty application. -/
theorem resolve_sentinel_and_additional_edits_witness :
    completion_item_resolve
        [{ label := "a", text_edit := none, insert_text := none,
           additional_text_edits := none },
         { label := "b", text_edit := none, insert_text := none,
           additional_text_edits := none }] (-1)
      = ResolveAction.noop
    ∧ completion_item_resolve
        [{ label := "a", text_edit := none, insert_text := none,
           additional_text_edits := none },
         { label := "b", text_edit := none, insert_text := none,
           additional_text_edits := none }] 1
      = ResolveAction.request
          { label := "b", text_edit := none, insert_text := none,
            additional_text_edits := none }
    ∧ editor_completion_item_resolve
        { label := "a", text_edit := none, insert_text := none,
          additional_text_edits := none }
        { label := "a", text_edit := none, insert_text := none,
          additional_text_edits := some [{ range :=
            { start := { line := 0, character := 0 }
              «end» := { line := 0, character := 0 } }, new_text := "use x;" }] }
      ≠ [] :=
  ⟨resolve_sentinel_and_additional_edits.1 _,
   resolve_sentinel_and_additional_edits.2.1 _ 1 _ (by decide) rfl,
   (resolve_sentinel_and_additional_edits.2.2 _ _).mpr
     ⟨rfl, [{ range := { start := { line := 0, character := 0 }
                         «end» := { line := 0, character := 0 } }, new_text := "use x;" }],
      rfl, by simp⟩⟩

/-- Equality of Strings is equality of their character lists of length
zero exactly on the empty string. -/
theorem string_length_eq_zero (s : String) : s.length = 0 ↔ s = "" := by
  constructor
  · intro h
    cases s with
    | mk data =>
      have hd : data = [] := List.length_eq_zero.mp h
      simp [hd]
  · intro h
    subst h
    rfl

/-- Claim C9: the acceptance path asserts that the left replacement
edit's range is non-empty; since that range's width is exactly the
character count of the matched pending-edit label, the path panics if and
only if the request parses, the document is tracked, and the stored label
is the empty string — an abort rather than a warning-level soft
failure. -/
theorem accept_empty_label_assertion :
    ∀ (coordinates : List Nat) (docPresent : Bool)
      (convRange : KakouneRange → LspRange) (cursor : LspPos)
      (completion_label : String) (completion_text_edit : CompletionTextEdit),
      apply_completion_edit coordinates docPresent convRange cursor
          completion_label completion_text_edit
        = CompletionEditOutcome.panicked
      ↔ (coordinates.length = 4 ∧ docPresent = true ∧ completion_label = "") := by
  intro coordinates docPresent convRange cursor completion_label completion_text_edit
  unfold apply_completion_edit
  by_cases h4 : coordinates.length = 4
  · rw [dif_pos h4]
    cases docPresent with
    | false => simp
    | true =>
      simp only [Bool.not_true, Bool.false_eq_true, if_false]
      by_cases hlen : completion_label.length = 0
      · rw [if_pos]
        · simp [h4, (string_length_eq_zero completion_label).mp hlen]
        · simp [hlen]
      · rw [if_neg]
        · constructor
          · intro hcontra
            exact absurd hcontra (by simp)
          · intro ⟨_, _, hempty⟩
            exact absurd ((string_length_eq_zero completion_label).mpr hempty) hlen
        · intro hcontra
          have := congrArg LspPos.character hcontra
          simp at this
          exact hlen this
  · rw [dif_neg h4]
    constructor
    · intro hcontra
      exact absurd hcontra (by simp)
    · intro ⟨hc, _⟩
      exact absurd hc h4

/-- Claim C7: accepting a completion looks up the pending edit by the
accepted label verbatim first and falls back to the label minus its last
character; when the client has no pending table the call warns and leaves
the table untouched; when both lookups miss it is a warning-level no-op;
and whenever the client's table exists it is cleared afterwards, whether
or not an edit was found. -/
theorem completion_accept_lookup_and_clear :
    (∀ (m : CompletionTextEdits) (client : Option String) (label : String),
        lookupClient m client = none →
        apply_completion_edit_from_editor client label m = (m, AcceptOutcome.warnNoClient))
    ∧ (∀ (m : CompletionTextEdits) (client : Option String) (label : String)
        (edits : ClientEdits) (lbl : String) (te : CompletionTextEdit) (rest : ClientEdits),
        lookupClient m client = some edits →
        remove_entry label edits = some ((lbl, te), rest) →
        apply_completion_edit_from_editor client label m
          = (setClient m client [], AcceptOutcome.accepted lbl te))
    ∧ (∀ (m : CompletionTextEdits) (client : Option String) (label : String)
        (edits : ClientEdits) (lbl : String) (te : CompletionTextEdit) (rest : ClientEdits),
        lookupClient m client = some edits →
        remove_entry label edits = none →
        remove_entry (without_last_character label) edits = some ((lbl, te), rest) →
        apply_completion_edit_from_editor client label m
          = (setClient m client [], AcceptOutcome.accepted lbl te))
    ∧ (∀ (m : CompletionTextEdits) (client : Option String) (label : String)
        (edits : ClientEdits),
        lookupClient m client = some edits →
        remove_entry label edits = none →
        remove_entry (without_last_character label) edits = none →
        apply_completion_edit_from_editor client label m
          = (setClient m client [], AcceptOutcome.warnNotFound)) := by
  refine ⟨?_, ?_, ?_, ?_⟩
  · intro m client label h
    unfold apply_completion_edit_from_editor
    rw [h]
  · intro m client label edits lbl te rest h h1
    unfold apply_completion_edit_from_editor
    rw [h]
    simp [h1, Option.or]
  · intro m client label edits lbl te rest h h1 h2
    unfold apply_completion_edit_from_editor
    rw [h]
    simp [h1, h2, Option.or]
  · intro m client label edits h h1 h2
    unfold apply_completion_edit_from_editor
    rw [h]
    simp [h1, h2, Option.or]

/-- Witness for C7 at the spec's label-collision example: with only
`"foo"` pending, accepting `"foo "` (one extra trailing character)
resolves to `"foo"`'s stored edit and clears the client's pending
entries; accepting a label with no match at all is the warning no-op and
still clears. -/
theorem completion_accept_lookup_and_clear_witness :
    apply_completion_edit_from_editor (some "cl") "foo "
        [(some "cl",
          [("foo", CompletionTextEdit.edit
            { range := { start := { line := 0, character := 0 }
                         «end» := { line := 0, character := 3 } }
              new_text := "foobar" })])]
      = ([(some "cl", [])],
         AcceptOutcome.accepted "foo"
           (CompletionTextEdit.edit
             { range := { start := { line := 0, character := 0 }
                          «end» := { line := 0, character := 3 } }
               new_text := "foobar" }))
    ∧ apply_completion_edit_from_editor (some "cl") "zz"
        [(some "cl",
          [("foo", CompletionTextEdit.edit
            { range := { start := { line := 0, character := 0 }
                         «end» := { line := 0, character := 3 } }
              new_text := "foobar" })])]
      = ([(some "cl", [])], AcceptOutcome.warnNotFound) :=
  ⟨completion_accept_lookup_and_clear.2.2.1
      [(some "cl",
        [("foo", CompletionTextEdit.edit
          { range := { start := { line := 0, character := 0 }
                       «end» := { line := 0, character := 3 } }
            new_text := "foobar" })])]
      (some "cl") "foo "
      [("foo", CompletionTextEdit.edit
        { range := { start := { line := 0, character := 0 }
                     «end» := { line := 0, character := 3 } }
          new_text := "foobar" })]
      "foo"
      (CompletionTextEdit.edit
        { range := { start := { line := 0, character := 0 }
                     «end» := { line := 0, character := 3 } }
          new_text := "foobar" })
      [] rfl rfl rfl,
   completion_accept_lookup_and_clear.2.2.2
      [(some "cl",
        [("foo", CompletionTextEdit.edit
          { range := { start := { line := 0, character := 0 }
                       «end» := { line := 0, character := 3 } }
            new_text := "foobar" })])]
      (some "cl") "zz"
      [("foo", CompletionTextEdit.edit
        { range := { start := { line := 0, character := 0 }
                     «end» := { line := 0, character := 3 } }
          new_text := "foobar" })]
      rfl rfl rfl⟩

end KakLsp
